import Mathlib

/-!
Verification of the hierarchical autoregressive sequence engine of the
interactive-spectrogram-inpainting repository.

The definitions below are a shallow embedding of the code in
`transformer.py` (class `VQNSynthTransformer`), `sample.py`
(function `sample_model`) and `priors/sequence_mask.py`.
Tensors indexed by grid positions are embedded as functions from indices,
sequences as lists; the semantics of the PyTorch primitives used by the
code (`repeat`, `unfold`, `permute`, `reshape`, `narrow`, `masked_fill`,
`index_fill_`, `ConstantPad2d`) is spelled out at each use site.
-/

/-- Configuration of `VQNSynthTransformer.__init__` (transformer.py, lines
40-161): the subset of constructor arguments that the verified operations
depend on.  `shape` is `[num_frequencies, frame_duration]`. -/
structure ModelConfig where
  shape : Nat × Nat
  conditionalModel : Bool
  conditionShape : Option (Nat × Nat)
  predictFrequenciesFirst : Bool
  predictLowFrequenciesFirst : Bool
  useRelativeTransformer : Bool
  positionalEmbeddingsDim : Nat

/-- Line 104: `self.positional_embeddings_dim = 2 * (positional_embeddings_dim // 2)`
(the stored, even value). -/
def storedPositionalEmbeddingsDim (p : Nat) : Nat := 2 * (p / 2)

/-- Lines 124-128: the source level dimensions: `condition_shape` for a
conditional model, `shape` otherwise.  The constructor asserts
`condition_shape is not None` for a conditional model; the `getD` default
is never reached for configurations passing that assert. -/
def sourceShape (cfg : ModelConfig) : Nat × Nat :=
  if cfg.conditionalModel then cfg.conditionShape.getD (0, 0) else cfg.shape

def sourceFrequencies (cfg : ModelConfig) : Nat := (sourceShape cfg).1

def sourceDuration (cfg : ModelConfig) : Nat := (sourceShape cfg).2

/-- Lines 135-136: for a conditional model the target level dimensions are
`shape`. -/
def targetFrequencies (cfg : ModelConfig) : Nat := cfg.shape.1

def targetDuration (cfg : ModelConfig) : Nat := cfg.shape.2

/-- Lines 132-133: `source_transformer_sequence_length = source_frequencies * source_duration`. -/
def sourceTransformerSequenceLength (cfg : ModelConfig) : Nat :=
  sourceFrequencies cfg * sourceDuration cfg

/-- Lines 137-138: `target_transformer_sequence_length = target_frequencies * target_duration`. -/
def targetTransformerSequenceLength (cfg : ModelConfig) : Nat :=
  targetFrequencies cfg * targetDuration cfg

/-- Lines 129-131: with `use_relative_transformer`,
`source_num_channels, source_num_events = source_frequencies, source_duration`. -/
def sourceNumChannels (cfg : ModelConfig) : Nat := sourceFrequencies cfg

def sourceNumEvents (cfg : ModelConfig) : Nat := sourceDuration cfg

/- ### Causal mask (`VQNSynthTransformer.causal_mask`, lines 408-424) -/

/-- Value of one entry of the additive attention mask: `0.0` or `float('-inf')`.
No arithmetic is performed on the entries, so the two float values are
embedded as a two-element type. -/
inductive MaskEntry where
  | zero
  | negInf
deriving DecidableEq

/-- Entry `[i, j]` of `torch.triu(torch.ones(L, L)) == 1`: true on and above
the diagonal. -/
def triuOnesBool (i j : Nat) : Bool := decide (i ≤ j)

/-- Lines 419-421: the boolean mask after `.transpose(0, 1)`:
entry `[i, j]` is `triu(ones)[j, i]`, i.e. true iff `j ≤ i`. -/
def causalMaskBool (i j : Nat) : Bool := triuOnesBool j i

/-- Lines 422-423: `mask.float().masked_fill(mask == 0, -inf).masked_fill(mask == 1, 0.0)`:
false entries become `-inf`, true entries become `0.0`. -/
def causalMaskEntry (i j : Nat) : MaskEntry :=
  if causalMaskBool i j then MaskEntry.zero else MaskEntry.negInf

/-- Lines 411-417: the side length of the causal mask:
`target_transformer_sequence_length` for a conditional model,
`source_transformer_sequence_length` otherwise. -/
def causalMaskLength (cfg : ModelConfig) : Nat :=
  if cfg.conditionalModel then targetTransformerSequenceLength cfg
  else sourceTransformerSequenceLength cfg

/-- Lines 654-665 of `forward`: the mask passed for the source sequence.
For a conditional model `src_mask=None` (full visibility of the
conditioning sequence); for an unconditional model the causal mask is
applied to the (source) input. -/
def forwardSourceMask (cfg : ModelConfig) : Option (Nat → Nat → MaskEntry) :=
  if cfg.conditionalModel then none else some causalMaskEntry

/-- Lines 654-661 of `forward`: the mask passed for the target sequence:
`tgt_mask=self.causal_mask` for a conditional model; an unconditional
model has no target sequence. -/
def forwardTargetMask (cfg : ModelConfig) : Option (Nat → Nat → MaskEntry) :=
  if cfg.conditionalModel then some causalMaskEntry else none

/- ### Shift-right with start symbol (`prepare_data`, lines 529-548) -/

/-- Level of a prepared sequence: the coarse conditioning (source) map or
the fine generated (target) map. -/
inductive LevelKind where
  | source
  | target
deriving DecidableEq

/-- Lines 534-541: `torch.cat([start_symbol, flattened.narrow(seq_dim, 0, L-1)])`:
prepend the start symbol and keep the first `L - 1` elements of the
flattened sequence (`narrow(dim, 0, n)` keeps elements `[0, n)`). -/
def shiftRightWithStart (start : α) (L : Nat) (xs : List α) : List α :=
  start :: xs.take (L - 1)

/-- Lines 533-545: the shift is applied unless
`self.conditional_model and kind == 'source'`; the conditional source
sequence (pure conditioning context) is returned unshifted. -/
def prepareDataSequence (cfg : ModelConfig) (kind : LevelKind) (start : α)
    (L : Nat) (xs : List α) : List α :=
  if ¬(cfg.conditionalModel = true ∧ kind = LevelKind.source) then
    shiftRightWithStart start L xs
  else
    xs

/- ### Zig-zag patch reordering (`zig_zag_reshaping_frequencies_first`, lines 426-457)

The input tensor has shape `[batch, target_duration, target_frequencies, E]`
(the method sets `frequency_dim, time_dim = 2, 1`: it is called after the
`predict_frequencies_first` transpose, so dim 1 is time and dim 2 is
frequency).  With `ts = target_duration // source_num_events` and
`fs = target_frequencies // source_num_channels`:

  * `input.unfold(1, ts, ts)`  : shape `[B, T/ts, F, E, ts]`, index
    `[b, tS, f, e, dt] = input[b, tS*ts + dt, f, e]`;
  * `.unfold(2, fs, fs)`       : shape `[B, T/ts, F/fs, E, ts, fs]`, index
    `[b, tS, fS, e, dt, df] = input[b, tS*ts + dt, fS*fs + df, e]`;
  * `.permute(0, 1, 2, 4, 5, 3)`: shape `[B, T/ts, F/fs, ts, fs, E]`;
  * `.reshape(B, T, F, E)`     : row-major flattening, so the output cell
    at `(tau, phi)` with flat index `tau*F + phi` decomposed in the mixed
    radix `(T/ts, F/fs, ts, fs)` as `((tS*(F/fs) + fS)*ts + dt)*fs + df`
    holds the input cell `(tS*ts + dt, fS*fs + df)`.

A grid is embedded as a function of `(time, frequency)` indices. -/

/-- The reordering of `zig_zag_reshaping_frequencies_first` as a map on
`(time, frequency)`-indexed grids, with the slice sizes derived from the
configuration exactly as in lines 437 and 444. -/
def zigZagReshapingFrequenciesFirst (cfg : ModelConfig) (M : Nat → Nat → α) :
    Nat → Nat → α :=
  fun tau phi =>
    let ts := targetDuration cfg / sourceNumEvents cfg
    let fs := targetFrequencies cfg / sourceNumChannels cfg
    let Ft := targetFrequencies cfg
    let flat := tau * Ft + phi
    let df := flat % fs
    let r1 := flat / fs
    let dt := r1 % ts
    let r2 := r1 / ts
    let fS := r2 % (Ft / fs)
    let tS := r2 / (Ft / fs)
    M (tS * ts + dt) (fS * fs + df)

/-- A conditional relative-mode configuration with source shape
`(srcF, srcT)` and target shape `(tgtF, tgtT)` (frequencies first in each
pair), as built by `__init__` for the patch-reordering claims. -/
def condRelConfig (srcF srcT tgtF tgtT : Nat) : ModelConfig :=
  ⟨(tgtF, tgtT), true, some (srcF, srcT), true, true, true, 16⟩

/- ### Combined positional embeddings (`_get_combined_positional_embeddings`, lines 353-398) -/

/-- The learned positional parameter tensors, embedded as the vector they
hold at each grid index: `sourceFreq f` is
`source_positional_embeddings_frequency[0, f, 0, :]` and so on;
`targetPatch a b` is `target_positional_embeddings_patch[0, a, b, :]`. -/
structure PositionalParams where
  sourceFreq : Nat → List Int
  sourceTime : Nat → List Int
  targetFreq : Nat → List Int
  targetTime : Nat → List Int
  targetPatch : Nat → Nat → List Int

/-- Lines 353-398: the combined positional embedding at grid cell
`(f, t)` of the given level.

  * `positional_embeddings_frequency.repeat(1, 1, duration, 1)` broadcasts
    the frequency embedding over time: cell `(f, t)` holds `freq f`.
  * Without `use_relative_transformer` (lines 375-381) the result is the
    concatenation with the time embedding repeated over frequencies:
    `freq f ++ time t`.
  * With `use_relative_transformer` and `kind == 'target'` (lines 383-394):
    `target_positional_embeddings_patch` has shape
    `[1, tgtF/srcF, tgtT/srcT, w]` (lines 197-202) and
    `.repeat(1, source_frequencies, source_duration, 1)` tiles it, so cell
    `(f, t)` holds `patch (f % (tgtF/srcF)) (t % (tgtT/srcT))`; the result
    is `freq f ++ patch ...`.
  * With `use_relative_transformer` and `kind == 'source'` (lines 395-398):
    the frequency embedding is concatenated with itself. -/
def combinedPositionalEmbeddings (cfg : ModelConfig) (pp : PositionalParams)
    (kind : LevelKind) : Nat → Nat → List Int :=
  fun f t =>
    if cfg.useRelativeTransformer = false then
      match kind with
      | LevelKind.source => pp.sourceFreq f ++ pp.sourceTime t
      | LevelKind.target => pp.targetFreq f ++ pp.targetTime t
    else
      match kind with
      | LevelKind.target =>
          pp.targetFreq f ++
            pp.targetPatch (f % (targetFrequencies cfg / sourceFrequencies cfg))
              (t % (targetDuration cfg / sourceDuration cfg))
      | LevelKind.source => pp.sourceFreq f ++ pp.sourceFreq f

/-- Shape of `source_positional_embeddings_frequency` (lines 163-168):
`[1, source_frequencies, 1, positional_embeddings_dim // 2]` where the
stored `positional_embeddings_dim` is the evened value. -/
def sourcePositionalEmbeddingsFrequencyShape (cfg : ModelConfig) : List Nat :=
  [1, sourceFrequencies cfg, 1,
   storedPositionalEmbeddingsDim cfg.positionalEmbeddingsDim / 2]

/-- Shape of `source_positional_embeddings_time` (lines 170-175). -/
def sourcePositionalEmbeddingsTimeShape (cfg : ModelConfig) : List Nat :=
  [1, 1, sourceDuration cfg,
   storedPositionalEmbeddingsDim cfg.positionalEmbeddingsDim / 2]

/-- Shape of `target_positional_embeddings_frequency` (lines 179-184 and
204-209). -/
def targetPositionalEmbeddingsFrequencyShape (cfg : ModelConfig) : List Nat :=
  [1, targetFrequencies cfg, 1,
   storedPositionalEmbeddingsDim cfg.positionalEmbeddingsDim / 2]

/-- Shape of `target_positional_embeddings_time` (lines 186-191). -/
def targetPositionalEmbeddingsTimeShape (cfg : ModelConfig) : List Nat :=
  [1, 1, targetDuration cfg,
   storedPositionalEmbeddingsDim cfg.positionalEmbeddingsDim / 2]

/-- Shape of `target_positional_embeddings_patch` (lines 197-202). -/
def targetPositionalEmbeddingsPatchShape (cfg : ModelConfig) : List Nat :=
  [1, targetFrequencies cfg / sourceFrequencies cfg,
   targetDuration cfg / sourceDuration cfg,
   storedPositionalEmbeddingsDim cfg.positionalEmbeddingsDim / 2]

/- ### Eager constructor checks (`__init__`, lines 74-79) -/

/-- The Python exceptions the embedded fragments can surface. -/
inductive PyException where
  | assertionError
  | typeErrorRaisedObjectNotAnException
  | notImplementedError (msg : String)
  | valueError (msg : String)
deriving DecidableEq

/-- Lines 74-79 of `__init__`, in program order:

  * `assert condition_shape is not None` for a conditional model;
  * `raise (NotImplementedError, "Relative positioning only implemented
    along time")` when `use_relative_transformer` is requested without
    `predict_frequencies_first`.  The raised object is the *tuple*
    `(NotImplementedError, "...")`, and in Python 3 raising a non-exception
    object raises `TypeError: exceptions must derive from BaseException`,
    which is embedded as `typeErrorRaisedObjectNotAnException`. -/
def initEagerChecks (cfg : ModelConfig) : Except PyException Unit :=
  if cfg.conditionalModel && cfg.conditionShape.isNone then
    Except.error PyException.assertionError
  else if cfg.useRelativeTransformer && !cfg.predictFrequenciesFirst then
    Except.error PyException.typeErrorRaisedObjectNotAnException
  else
    Except.ok ()

/- ### Autoregressive sampler (`sample_model`, sample.py lines 26-91) -/

/-- The Python `>` comparison on lists of integers: lexicographic, with a
proper prefix comparing smaller than the longer list (line 58 compares
`list(constraint.shape)`, a 3-element list, with `codemap_size`, a
2-element list). -/
def pyListGt : List Nat → List Nat → Bool
  | [], [] => false
  | _ :: _, [] => true
  | [], _ :: _ => false
  | a :: as, b :: bs =>
      if b < a then true else if a < b then false else pyListGt as bs

/-- In-place write `codemap[:, i, j] = sample` (line 87) on a
`(row, column)`-indexed grid. -/
def gridUpdate (g : Nat → Nat → Int) (i j : Nat) (v : Int) :
    Nat → Nat → Int :=
  fun i' j' => if i' = i ∧ j' = j then v else g i' j'

/-- Lines 82-87, the inner loop over frequency rows of column `j`: each
visited row receives the token drawn by the sampling oracle `samp` (the
model forward pass, softmax and `torch.multinomial` draw, abstracted as a
function of the current codemap and the position). -/
def sampleInnerLoop (j : Nat) (rows : List Nat)
    (samp : (Nat → Nat → Int) → Nat → Nat → Int)
    (g : Nat → Nat → Int) : Nat → Nat → Int :=
  rows.foldl (fun g' i => gridUpdate g' i j (samp g' i j)) g

/-- Lines 78-87, the loop for `predict_frequencies_first`: outer loop over
the `W` time columns; for column `j` the start row is
`0 if j > constraint_width else constraint_height + 1` (line 80-81, with
both bounds `-1` when no constraint was given), and the inner loop covers
`range(start_column, H)`. -/
def sampleLoop (H W : Nat) (constraintHeight constraintWidth : Int)
    (samp : (Nat → Nat → Int) → Nat → Nat → Int)
    (g0 : Nat → Nat → Int) : Nat → Nat → Int :=
  (List.range W).foldl
    (fun g (j : Nat) =>
      let start : Nat :=
        (if (j : Int) > constraintWidth then 0 else constraintHeight + 1).toNat
      sampleInnerLoop j (List.range' start (H - start)) samp g)
    g0

/-- `sample_model` (lines 50-91) for a frequency-first model.  The codemap
is zero-initialized (line 50); a constraint `(c, w, values)` (its batch
entry dropped, shape `[1, c, w]`) is checked with the Python comparison
`list(constraint.shape) > codemap_size` (line 58) and, when accepted,
written into the top-left region by `ConstantPad2d` with paddings
`(0, W - w, 0, H - c)` (lines 64-74; negative paddings crop, so the
padded result at `(i, j)` is the constraint value when `i < c` and
`j < w` and `0` otherwise, for in-range indices). -/
def sampleModel (batchSize : Nat) (codemapSize : List Nat)
    (constraint : Option (Nat × Nat × (Nat → Nat → Int)))
    (samp : (Nat → Nat → Int) → Nat → Nat → Int) :
    Except String (Nat → Nat → Int) :=
  let H := codemapSize.getD 0 0
  let W := codemapSize.getD 1 0
  match constraint with
  | none =>
      Except.ok (sampleLoop H W (-1) (-1) samp (fun _ _ => 0))
  | some (c, w, cvals) =>
      if pyListGt [batchSize, c, w] codemapSize then
        Except.error
          "Incorrect size of constraint, constraint should be smaller than the target codemap size"
      else
        Except.ok (sampleLoop H W (c : Int) (w : Int) samp
          (fun i j => if i < c ∧ j < w then cvals i j else 0))

/-- Extract the codemap of a successful `sample_model` run (the default is
never used by the theorems below, which only read successful runs). -/
def sampledGrid (e : Except String (Nat → Nat → Int)) : Nat → Nat → Int :=
  match e with
  | Except.ok g => g
  | Except.error _ => fun _ _ => 0

/-- Whether an embedded Python call returned normally (no exception). -/
def exceptIsOk (e : Except ε α) : Bool :=
  match e with
  | Except.ok _ => true
  | Except.error _ => false

/- ### Sequence masks (`priors/sequence_mask.py`) -/

/-- Line 52-53: `min_masked_amount = math.ceil(sequence_duration * min_masking_ratio)`,
with the ratio embedded as a rational. -/
def minMaskedAmount (L : Nat) (r : ℚ) : ℤ := ⌈(L : ℚ) * r⌉

/-- Lines 71-74: `mask_indexes_batched + (torch.arange(batch_size) *
sequence_duration).unsqueeze(1)`, flattened row by row: row `b` of the
index matrix contributes its entries shifted by `b * L`. -/
def flattenMaskIndexes (L : Nat) : Nat → List (List Nat) → List Nat
  | _, [] => []
  | b, row :: rest => row.map (· + b * L) ++ flattenMaskIndexes L (b + 1) rest

/-- Line 75: `mask_sequence.index_fill_(0, mask_indexes_flattened, True)`:
set every listed position of the flat boolean vector to `True`. -/
def indexFillTrue (v : List Bool) (ids : List Nat) : List Bool :=
  ids.foldl (fun w i => w.set i true) v

/-- Line 76: `mask_sequence.reshape(batch_size, sequence_duration)`:
row `b` is the slice `[b*L, b*L + L)` of the flat vector. -/
def maskReshape (batch L : Nat) (v : List Bool) : List (List Bool) :=
  (List.range batch).map (fun b => (v.drop (b * L)).take L)

/-- `UniformMaskedAmountSequenceMask.sample_mask` (lines 55-77) given the
two random draws as inputs: `k` is the `torch.randint(min_masked_amount,
L + 1, (1,))` draw and `idx` the `torch.multinomial(ones(batch, L), k,
replacement=False)` draw (one list of `k` distinct indices below `L` per
batch row).  The mask is built from `torch.full((batch*L,), False)` by
`index_fill_` on the flattened indexes, then reshaped. -/
def sampleMaskUniformAmount (batch L k : Nat) (idx : List (List Nat)) :
    List (List Bool) :=
  maskReshape batch L
    (indexFillTrue (List.replicate (batch * L) false) (flattenMaskIndexes L 0 idx))

/-- `input.masked_fill(mask, mask_token_index)` (line 17) on a
`[batch, L]` tensor embedded as a list of rows: each position where the
mask is true is replaced by the mask token, every other position keeps
the input value. -/
def maskedFill (input : List (List Int)) (mask : List (List Bool))
    (tok : Int) : List (List Int) :=
  List.zipWith
    (fun irow mrow => List.zipWith (fun x m => if m then tok else x) irow mrow)
    input mask

/-- `SequenceMask.apply_mask` (lines 15-17) with the freshly sampled mask
given as input.  `masked_fill` is the out-of-place variant (not
`masked_fill_`), so the call leaves the caller tensor untouched: the
first component is the caller buffer after the call, the second the
returned tensor. -/
def applyMask (input : List (List Int)) (mask : List (List Bool))
    (tok : Int) : List (List Int) × List (List Int) :=
  (input, maskedFill input mask tok)

/- ## Theorems -/

/-- C3: for every sequence length, the causal mask entry `[i, j]` is `0`
iff `j ≤ i` and `-inf` iff `j > i`; in the conditional model the mask
length is the target sequence length only and the source sequence
receives no mask (`src_mask=None`), while in the unconditional model the
mask length is the source sequence length. -/
theorem c3_causal_mask (cfg : ModelConfig) (i j : Nat)
    (hi : i < causalMaskLength cfg) (hj : j < causalMaskLength cfg) :
    (causalMaskEntry i j = MaskEntry.zero ↔ j ≤ i) ∧
    (causalMaskEntry i j = MaskEntry.negInf ↔ i < j) ∧
    (cfg.conditionalModel = true →
      causalMaskLength cfg = targetTransformerSequenceLength cfg ∧
      forwardSourceMask cfg = none ∧
      forwardTargetMask cfg = some causalMaskEntry) ∧
    (cfg.conditionalModel = false →
      causalMaskLength cfg = sourceTransformerSequenceLength cfg ∧
      forwardTargetMask cfg = none ∧
      forwardSourceMask cfg = some causalMaskEntry) := by
  refine ⟨?_, ?_, ?_, ?_⟩
  · unfold causalMaskEntry causalMaskBool triuOnesBool
    by_cases h : j ≤ i <;> simp [h]
  · unfold causalMaskEntry causalMaskBool triuOnesBool
    by_cases h : j ≤ i <;> simp [h] <;> omega
  · intro h
    simp [causalMaskLength, forwardSourceMask, forwardTargetMask, h]
  · intro h
    simp [causalMaskLength, forwardSourceMask, forwardTargetMask, h]

/-- Witness for C3 at an unconditional model of shape `(2, 2)`, whose mask
length is `4`: row `3` allows column `0`, row `0` forbids column `1`. -/
theorem c3_causal_mask_witness :
    (causalMaskEntry 3 0 = MaskEntry.zero ↔ (0 : Nat) ≤ 3) ∧
    (causalMaskEntry 0 1 = MaskEntry.negInf ↔ (0 : Nat) < 1) :=
  ⟨(c3_causal_mask ⟨(2, 2), false, none, true, true, false, 16⟩ 3 0
      (by decide) (by decide)).1,
   (c3_causal_mask ⟨(2, 2), false, none, true, true, false, 16⟩ 0 1
      (by decide) (by decide)).2.1⟩

/-- C4: `prepare_data` shifts every (level, model-kind) combination except
the source level of a conditional model: the shifted sequence starts with
the start symbol, its position `k ≥ 1` holds the unshifted position
`k - 1`, and its length equals the unshifted length; the conditional
source sequence is returned unshifted. -/
theorem c4_shift (cfg : ModelConfig) (kind : LevelKind) (start : Int)
    (L : Nat) (xs : List Int) (hxs : xs.length = L) (hL : 0 < L) :
    (¬(cfg.conditionalModel = true ∧ kind = LevelKind.source) →
      (prepareDataSequence cfg kind start L xs).length = L ∧
      (prepareDataSequence cfg kind start L xs)[0]? = some start ∧
      ∀ k, 1 ≤ k → k < L →
        (prepareDataSequence cfg kind start L xs)[k]? = xs[k - 1]?) ∧
    (cfg.conditionalModel = true ∧ kind = LevelKind.source →
      prepareDataSequence cfg kind start L xs = xs) := by
  constructor
  · intro h
    have hseq : prepareDataSequence cfg kind start L xs
        = shiftRightWithStart start L xs := by
      simp [prepareDataSequence, h]
    rw [hseq]
    unfold shiftRightWithStart
    refine ⟨?_, by simp, ?_⟩
    · simp [List.length_take, hxs]
      omega
    · intro k hk1 hkL
      match k, hk1 with
      | (m + 1), _ =>
        simp only [List.getElem?_cons_succ, Nat.add_sub_cancel]
        rw [List.getElem?_take]
        have : m < L - 1 := by omega
        simp [this]
  · intro h
    simp [prepareDataSequence, h]

/-- Witness for C4: an unconditional source sequence of length 3 is
shifted, a conditional source sequence is not. -/
theorem c4_shift_witness :
    (prepareDataSequence ⟨(1, 3), false, none, true, true, false, 16⟩
        LevelKind.source (9 : Int) 3 [1, 2, 3]).length = 3 ∧
    (prepareDataSequence ⟨(1, 3), false, none, true, true, false, 16⟩
        LevelKind.source (9 : Int) 3 [1, 2, 3])[0]? = some 9 ∧
    (prepareDataSequence ⟨(1, 3), false, none, true, true, false, 16⟩
        LevelKind.source (9 : Int) 3 [1, 2, 3])[2]? = ([1, 2, 3] : List Int)[1]? ∧
    prepareDataSequence ⟨(1, 3), true, some (1, 3), true, true, false, 16⟩
        LevelKind.source (9 : Int) 3 [1, 2, 3] = [1, 2, 3] := by
  have h1 := c4_shift ⟨(1, 3), false, none, true, true, false, 16⟩
    LevelKind.source (9 : Int) 3 [1, 2, 3] rfl (by decide)
  have h2 := c4_shift ⟨(1, 3), true, some (1, 3), true, true, false, 16⟩
    LevelKind.source (9 : Int) 3 [1, 2, 3] rfl (by decide)
  have ha := h1.1 (by simp)
  exact ⟨ha.1, ha.2.1, ha.2.2 2 (by decide) (by decide), h2.2 ⟨rfl, rfl⟩⟩

/-- C10: the constructor stores `2 * (positional_embeddings_dim // 2)` (an
even value, also for odd inputs), every positional parameter tensor has
last dimension exactly half the stored width, and two halves concatenate
back to exactly the stored width. -/
theorem c10_positional_dim_even (cfg : ModelConfig) :
    storedPositionalEmbeddingsDim cfg.positionalEmbeddingsDim
        = 2 * (cfg.positionalEmbeddingsDim / 2) ∧
    2 ∣ storedPositionalEmbeddingsDim cfg.positionalEmbeddingsDim ∧
    (sourcePositionalEmbeddingsFrequencyShape cfg).getLast?
        = some (storedPositionalEmbeddingsDim cfg.positionalEmbeddingsDim / 2) ∧
    (sourcePositionalEmbeddingsTimeShape cfg).getLast?
        = some (storedPositionalEmbeddingsDim cfg.positionalEmbeddingsDim / 2) ∧
    (targetPositionalEmbeddingsFrequencyShape cfg).getLast?
        = some (storedPositionalEmbeddingsDim cfg.positionalEmbeddingsDim / 2) ∧
    (targetPositionalEmbeddingsTimeShape cfg).getLast?
        = some (storedPositionalEmbeddingsDim cfg.positionalEmbeddingsDim / 2) ∧
    (targetPositionalEmbeddingsPatchShape cfg).getLast?
        = some (storedPositionalEmbeddingsDim cfg.positionalEmbeddingsDim / 2) ∧
    storedPositionalEmbeddingsDim cfg.positionalEmbeddingsDim / 2
        + storedPositionalEmbeddingsDim cfg.positionalEmbeddingsDim / 2
        = storedPositionalEmbeddingsDim cfg.positionalEmbeddingsDim := by
  refine ⟨rfl, ⟨cfg.positionalEmbeddingsDim / 2, rfl⟩, rfl, rfl, rfl, rfl, rfl, ?_⟩
  unfold storedPositionalEmbeddingsDim
  omega

/-- C8 (code bug): requesting relative positioning without
frequency-first ordering is detected eagerly in `__init__`, but the
statement `raise (NotImplementedError, "Relative positioning only
implemented along time")` raises a tuple, so the surfaced exception is
Python 3's `TypeError: exceptions must derive from BaseException`, not
the descriptive `NotImplementedError`. -/
theorem c8_relative_without_frequencies_first_raises_typeerror :
    initEagerChecks ⟨(4, 4), false, none, false, true, true, 16⟩
      = Except.error PyException.typeErrorRaisedObjectNotAnException := rfl

/-- C5 (code bug): a constraint of spatial shape `(3, 3)` strictly larger
than the `[2, 2]` codemap is not rejected: the check
`list(constraint.shape) > codemap_size` compares the 3-element list
`[batch, 3, 3]` lexicographically with `[2, 2]`, and `batch = 1 < 2`
makes it false, so `sample_model` proceeds (the oversized constraint is
then silently cropped by the negative paddings of `ConstantPad2d`)
instead of failing with a shape error. -/
theorem c5_oversized_constraint_not_rejected :
    pyListGt [1, 3, 3] [2, 2] = false ∧
    exceptIsOk (sampleModel 1 [2, 2] (some (3, 3, fun _ _ => 5))
      (fun _ _ _ => 1)) = true :=
  ⟨rfl, rfl⟩

/-- C9: `apply_mask` returns a same-shape tensor equal to the input with
the mask-selected positions replaced by the mask token; since it calls
the out-of-place `masked_fill`, the caller input tensor is unchanged by
the call. -/
theorem c9_apply_mask (input : List (List Int)) (mask : List (List Bool))
    (tok : Int) (batch L : Nat)
    (hil : input.length = batch) (hir : ∀ row ∈ input, row.length = L)
    (hml : mask.length = batch) (hmr : ∀ row ∈ mask, row.length = L) :
    (applyMask input mask tok).1 = input ∧
    (applyMask input mask tok).2.length = batch ∧
    ∀ b j, b < batch → j < L →
      ((applyMask input mask tok).2.getD b []).length = L ∧
      ((applyMask input mask tok).2.getD b []).getD j 0 =
        if (mask.getD b []).getD j false then tok
        else (input.getD b []).getD j 0 := by
  refine ⟨rfl, ?_, ?_⟩
  · simp [applyMask, maskedFill, List.length_zipWith, hil, hml]
  · intro b j hb hj
    have hbi : b < input.length := by rw [hil]; exact hb
    have hbm : b < mask.length := by rw [hml]; exact hb
    have hbz : b < (maskedFill input mask tok).length := by
      simpa [maskedFill, List.length_zipWith, hil, hml] using hb
    have hrow : (applyMask input mask tok).2.getD b []
        = List.zipWith (fun x m => if m then tok else x)
            input[b] mask[b] := by
      show (maskedFill input mask tok).getD b [] = _
      rw [List.getD_eq_getElem _ _ hbz]
      simp [maskedFill, List.getElem_zipWith]
    have hlin : input[b].length = L := hir _ (List.getElem_mem hbi)
    have hlmk : mask[b].length = L := hmr _ (List.getElem_mem hbm)
    have hji : j < input[b].length := by rw [hlin]; exact hj
    have hjm : j < mask[b].length := by rw [hlmk]; exact hj
    constructor
    · rw [hrow]; simp [List.length_zipWith, hlin, hlmk]
    · rw [hrow]
      have hjz : j < (List.zipWith (fun x m => if m then tok else x)
          input[b] mask[b]).length := by
        simp [List.length_zipWith, hlin, hlmk]; exact hj
      rw [List.getD_eq_getElem _ _ hjz, List.getElem_zipWith,
          List.getD_eq_getElem _ _ hbi, List.getD_eq_getElem _ _ hbm,
          List.getD_eq_getElem _ _ hji, List.getD_eq_getElem _ _ hjm]

/-- Witness for C9 on a `2 x 2` input: masked cells get the token `99`,
unmasked cells keep their value, the input is untouched. -/
theorem c9_apply_mask_witness :
    (applyMask [[1, 2], [3, 4]] [[true, false], [false, true]] 99).1
        = [[1, 2], [3, 4]] ∧
    ((applyMask [[1, 2], [3, 4]] [[true, false], [false, true]] 99).2.getD 0 []).getD 0 0
        = 99 ∧
    ((applyMask [[1, 2], [3, 4]] [[true, false], [false, true]] 99).2.getD 0 []).getD 1 0
        = 2 := by
  have h := c9_apply_mask [[1, 2], [3, 4]] [[true, false], [false, true]]
    99 2 2 rfl (by decide) rfl (by decide)
  refine ⟨h.1, ?_, ?_⟩
  · have := (h.2.2 0 0 (by decide) (by decide)).2
    simpa using this
  · have := (h.2.2 0 1 (by decide) (by decide)).2
    simpa using this

/-- Concrete positional parameters whose source frequency and time
embeddings differ, used to exhibit the relative-mode source behaviour. -/
def counterexamplePositionalParams : PositionalParams :=
  ⟨fun _ => [0], fun _ => [1], fun _ => [0], fun _ => [0], fun _ _ => [0]⟩

/-- C6 counterexample: in relative/patch mode the combined positional
embedding of the *source* level is the frequency embedding concatenated
with itself (lines 395-398), not the claimed frequency-and-time
concatenation. -/
theorem c6_counterexample :
    combinedPositionalEmbeddings (condRelConfig 1 1 2 2)
        counterexamplePositionalParams LevelKind.source 0 0 ≠
      counterexamplePositionalParams.sourceFreq 0 ++
        counterexamplePositionalParams.sourceTime 0 := by
  decide

/-- C6 (amended): the combined positional embedding of each level is the
concatenation of two half-width embeddings (total width the stored
positional width): without relative mode, frequency concatenated with
time for both levels; in relative mode, the target level concatenates
the full-resolution frequency embedding with the patch-local embedding
tiled once per source cell, and the source level concatenates the
frequency embedding with a second copy of itself. -/
theorem c6_amended_positional (cfg : ModelConfig) (pp : PositionalParams)
    (hsF : ∀ f, (pp.sourceFreq f).length
      = storedPositionalEmbeddingsDim cfg.positionalEmbeddingsDim / 2)
    (hsT : ∀ t, (pp.sourceTime t).length
      = storedPositionalEmbeddingsDim cfg.positionalEmbeddingsDim / 2)
    (htF : ∀ f, (pp.targetFreq f).length
      = storedPositionalEmbeddingsDim cfg.positionalEmbeddingsDim / 2)
    (htT : ∀ t, (pp.targetTime t).length
      = storedPositionalEmbeddingsDim cfg.positionalEmbeddingsDim / 2)
    (htP : ∀ a b, (pp.targetPatch a b).length
      = storedPositionalEmbeddingsDim cfg.positionalEmbeddingsDim / 2) :
    ∀ kind f t,
      (combinedPositionalEmbeddings cfg pp kind f t).length
          = storedPositionalEmbeddingsDim cfg.positionalEmbeddingsDim ∧
      (cfg.useRelativeTransformer = false →
        combinedPositionalEmbeddings cfg pp LevelKind.source f t
            = pp.sourceFreq f ++ pp.sourceTime t ∧
        combinedPositionalEmbeddings cfg pp LevelKind.target f t
            = pp.targetFreq f ++ pp.targetTime t) ∧
      (cfg.useRelativeTransformer = true →
        combinedPositionalEmbeddings cfg pp LevelKind.target f t
            = pp.targetFreq f ++
                pp.targetPatch
                  (f % (targetFrequencies cfg / sourceFrequencies cfg))
                  (t % (targetDuration cfg / sourceDuration cfg)) ∧
        combinedPositionalEmbeddings cfg pp LevelKind.source f t
            = pp.sourceFreq f ++ pp.sourceFreq f) := by
  intro kind f t
  refine ⟨?_, ?_, ?_⟩
  · cases hrel : cfg.useRelativeTransformer <;> cases kind <;>
      simp [combinedPositionalEmbeddings, hrel, hsF, hsT, htF, htT, htP,
        storedPositionalEmbeddingsDim] <;> omega
  · intro h
    constructor <;> simp [combinedPositionalEmbeddings, h]
  · intro h
    constructor <;> simp [combinedPositionalEmbeddings, h]

/-- Witness parameters for C6: half-width 1 for a stored positional width
of 2. -/
def witnessPositionalParams : PositionalParams :=
  ⟨fun _ => [5], fun _ => [6], fun _ => [7], fun _ => [8], fun _ _ => [9]⟩

/-- Witness for C6 at a non-relative conditional model with
`positional_embeddings_dim = 2`. -/
theorem c6_amended_positional_witness :
    (combinedPositionalEmbeddings ⟨(2, 2), true, some (1, 1), true, true, false, 2⟩
        witnessPositionalParams LevelKind.source 0 0).length = 2 ∧
    combinedPositionalEmbeddings ⟨(2, 2), true, some (1, 1), true, true, false, 2⟩
        witnessPositionalParams LevelKind.source 0 0 = [5, 6] := by
  have h := c6_amended_positional
    ⟨(2, 2), true, some (1, 1), true, true, false, 2⟩ witnessPositionalParams
    (fun _ => rfl) (fun _ => rfl) (fun _ => rfl) (fun _ => rfl)
    (fun _ _ => rfl) LevelKind.source 0 0
  exact ⟨h.1, ((h.2.1 rfl).1).trans rfl⟩

/-- Evaluation of the zig-zag reordering for a conditional relative model
with source shape `(k, Ts)` and target shape `(k * fs, Ts * k)`: the
special family in which the time slice count equals the source frequency
count `k`.  The output cell `(tau, phi)` reads the input cell
`(tau / k * k + phi / fs, tau % k * fs + phi % fs)`. -/
theorem zigZag_condRel_eval (Ts k fs : Nat) (hTs : 0 < Ts) (hk : 0 < k)
    (hfs : 0 < fs) (M : Nat → Nat → Int) (tau phi : Nat)
    (hphi : phi < k * fs) :
    zigZagReshapingFrequenciesFirst (condRelConfig k Ts (k * fs) (Ts * k))
      M tau phi
      = M (tau / k * k + phi / fs) (tau % k * fs + phi % fs) := by
  simp only [zigZagReshapingFrequenciesFirst, condRelConfig, targetDuration,
    targetFrequencies, sourceNumEvents, sourceNumChannels, sourceDuration,
    sourceFrequencies, sourceShape, if_true, Option.getD_some]
  rw [Nat.mul_div_cancel_left fs hk, Nat.mul_div_cancel k hfs,
    Nat.mul_div_cancel_left k hTs]
  have hflat_mod : (tau * (k * fs) + phi) % fs = phi % fs := by
    rw [← mul_assoc, mul_comm (tau * k) fs, Nat.mul_add_mod]
  have hflat_div : (tau * (k * fs) + phi) / fs = tau * k + phi / fs := by
    rw [← mul_assoc, mul_comm (tau * k) fs, Nat.mul_add_div hfs]
  have hq : phi / fs < k := (Nat.div_lt_iff_lt_mul hfs).2 hphi
  have hr1_mod : (tau * k + phi / fs) % k = phi / fs := by
    rw [mul_comm tau k, Nat.mul_add_mod]
    exact Nat.mod_eq_of_lt hq
  have hr1_div : (tau * k + phi / fs) / k = tau := by
    rw [mul_comm tau k, Nat.mul_add_div hk, Nat.div_eq_of_lt hq, add_zero]
  rw [hflat_mod, hflat_div, hr1_mod, hr1_div]

/-- Round trip of the zig-zag reordering in the regime where the time
resolution factor `target_duration / source_duration` equals the source
frequency count `k`: applying the reordering twice is the identity on
in-range grid cells. -/
theorem zigZag_roundTrip_factor_eq (Ts k fs : Nat) (M : Nat → Nat → Int)
    (tau phi : Nat) (htau : tau < Ts * k) (hphi : phi < k * fs) :
    zigZagReshapingFrequenciesFirst (condRelConfig k Ts (k * fs) (Ts * k))
      (zigZagReshapingFrequenciesFirst (condRelConfig k Ts (k * fs) (Ts * k)) M)
      tau phi = M tau phi := by
  have hTsk : 0 < Ts * k := lt_of_le_of_lt (Nat.zero_le tau) htau
  have hkfs : 0 < k * fs := lt_of_le_of_lt (Nat.zero_le phi) hphi
  have hTs : 0 < Ts := by
    rcases Nat.eq_zero_or_pos Ts with h | h
    · rw [h, Nat.zero_mul] at hTsk; exact absurd hTsk (lt_irrefl 0)
    · exact h
  have hk : 0 < k := by
    rcases Nat.eq_zero_or_pos k with h | h
    · rw [h, Nat.zero_mul] at hkfs; exact absurd hkfs (lt_irrefl 0)
    · exact h
  have hfs : 0 < fs := by
    rcases Nat.eq_zero_or_pos fs with h | h
    · rw [h, Nat.mul_zero] at hkfs; exact absurd hkfs (lt_irrefl 0)
    · exact h
  have hm : tau % k < k := Nat.mod_lt _ hk
  have hmf : phi % fs < fs := Nat.mod_lt _ hfs
  have hphi2 : tau % k * fs + phi % fs < k * fs := by
    calc tau % k * fs + phi % fs < tau % k * fs + fs := by omega
      _ = (tau % k + 1) * fs := by ring
      _ ≤ k * fs := Nat.mul_le_mul_right fs hm
  rw [zigZag_condRel_eval Ts k fs hTs hk hfs _ tau phi hphi]
  rw [zigZag_condRel_eval Ts k fs hTs hk hfs M _ _ hphi2]
  have hq : phi / fs < k := (Nat.div_lt_iff_lt_mul hfs).2 hphi
  have e1 : (tau / k * k + phi / fs) / k = tau / k := by
    rw [mul_comm (tau / k) k, Nat.mul_add_div hk, Nat.div_eq_of_lt hq, add_zero]
  have e2 : (tau / k * k + phi / fs) % k = phi / fs := by
    rw [mul_comm (tau / k) k, Nat.mul_add_mod]
    exact Nat.mod_eq_of_lt hq
  have e3 : (tau % k * fs + phi % fs) / fs = tau % k := by
    rw [mul_comm (tau % k) fs, Nat.mul_add_div hfs, Nat.div_eq_of_lt hmf, add_zero]
  have e4 : (tau % k * fs + phi % fs) % fs = phi % fs := by
    rw [mul_comm (tau % k) fs, Nat.mul_add_mod]
    exact Nat.mod_eq_of_lt hmf
  rw [e1, e2, e3, e4]
  have ht : tau / k * k + tau % k = tau := by
    rw [mul_comm]; exact Nat.div_add_mod tau k
  have hp : phi / fs * fs + phi % fs = phi := by
    rw [mul_comm]; exact Nat.div_add_mod phi fs
  rw [ht, hp]

/-- In the degenerate regime where the time resolution factor
`target_duration / source_duration` equals 1 (target duration `Ts` equals
the source duration), the zig-zag reordering is already the identity on
in-range grid cells. -/
theorem zigZag_eval_time_factor_one (Fs Ts fs : Nat) (hTs : 0 < Ts)
    (hFs : 0 < Fs) (hfs : 0 < fs) (M : Nat → Nat → Int) (tau phi : Nat)
    (hphi : phi < Fs * fs) :
    zigZagReshapingFrequenciesFirst (condRelConfig Fs Ts (Fs * fs) Ts)
      M tau phi = M tau phi := by
  simp only [zigZagReshapingFrequenciesFirst, condRelConfig, targetDuration,
    targetFrequencies, sourceNumEvents, sourceNumChannels, sourceDuration,
    sourceFrequencies, sourceShape, if_true, Option.getD_some]
  rw [Nat.div_self hTs, Nat.mul_div_cancel_left fs hFs,
    Nat.mul_div_cancel Fs hfs]
  have hflat_mod : (tau * (Fs * fs) + phi) % fs = phi % fs := by
    rw [← mul_assoc, mul_comm (tau * Fs) fs, Nat.mul_add_mod]
  have hflat_div : (tau * (Fs * fs) + phi) / fs = tau * Fs + phi / fs := by
    rw [← mul_assoc, mul_comm (tau * Fs) fs, Nat.mul_add_div hfs]
  have hq : phi / fs < Fs := (Nat.div_lt_iff_lt_mul hfs).2 hphi
  have hr1_mod : (tau * Fs + phi / fs) % Fs = phi / fs := by
    rw [mul_comm tau Fs, Nat.mul_add_mod]
    exact Nat.mod_eq_of_lt hq
  have hr1_div : (tau * Fs + phi / fs) / Fs = tau := by
    rw [mul_comm tau Fs, Nat.mul_add_div hFs, Nat.div_eq_of_lt hq, add_zero]
  rw [hflat_mod, hflat_div, Nat.mod_one, Nat.div_one, hr1_mod, hr1_div,
    Nat.mul_one, Nat.add_zero]
  have hp : phi / fs * fs + phi % fs = phi := by
    rw [mul_comm]; exact Nat.div_add_mod phi fs
  rw [hp]

/-- In the degenerate regime where the source frequency count equals 1,
the zig-zag reordering is already the identity on in-range grid cells
(target shape `(F, Ts * tf)`, source shape `(1, Ts)`). -/
theorem zigZag_eval_source_freq_one (Ts tf F : Nat) (hTs : 0 < Ts)
    (hF : 0 < F) (M : Nat → Nat → Int) (tau phi : Nat) (hphi : phi < F) :
    zigZagReshapingFrequenciesFirst (condRelConfig 1 Ts F (Ts * tf))
      M tau phi = M tau phi := by
  simp only [zigZagReshapingFrequenciesFirst, condRelConfig, targetDuration,
    targetFrequencies, sourceNumEvents, sourceNumChannels, sourceDuration,
    sourceFrequencies, sourceShape, if_true, Option.getD_some]
  rw [Nat.mul_div_cancel_left tf hTs, Nat.div_one, Nat.div_self hF]
  have hflat_mod : (tau * F + phi) % F = phi := by
    rw [mul_comm tau F, Nat.mul_add_mod]
    exact Nat.mod_eq_of_lt hphi
  have hflat_div : (tau * F + phi) / F = tau := by
    rw [mul_comm tau F, Nat.mul_add_div hF, Nat.div_eq_of_lt hphi, add_zero]
  rw [hflat_mod, hflat_div, Nat.mod_one, Nat.div_one, Nat.zero_mul,
    Nat.zero_add]
  have ht : tau / tf * tf + tau % tf = tau := by
    rw [mul_comm]; exact Nat.div_add_mod tau tf
  rw [ht]

/-- C1 (amended): the reordering applied in `prepare_data` composed with
the de-reordering of `to_time_frequency_map` — which invokes the *same*
`zig_zag_reshaping_frequencies_first` (the intermediate flatten/reshape
pair is the identity on the grid) — returns the original grid exactly in
the regimes where the time resolution factor
`target_duration / source_duration` equals the source frequency count,
or the time resolution factor equals 1, or the source frequency count
equals 1; this covers the source `4 x 4` target `4 x 16` resolution pair
but not all divisible pairs. -/
theorem c1_amended_roundtrip (srcF srcT tgtF tgtT : Nat)
    (M : Nat → Nat → Int) (tau phi : Nat)
    (htau : tau < tgtT) (hphi : phi < tgtF)
    (hsF : 0 < srcF) (hsT : 0 < srcT)
    (hdF : srcF ∣ tgtF) (hdT : srcT ∣ tgtT)
    (hregime : tgtT / srcT = srcF ∨ tgtT / srcT = 1 ∨ srcF = 1) :
    zigZagReshapingFrequenciesFirst (condRelConfig srcF srcT tgtF tgtT)
      (zigZagReshapingFrequenciesFirst (condRelConfig srcF srcT tgtF tgtT) M)
      tau phi = M tau phi := by
  obtain ⟨fs, hfs⟩ := hdF
  obtain ⟨tf, htf⟩ := hdT
  have htdiv : tgtT / srcT = tf := by
    rw [htf]; exact Nat.mul_div_cancel_left tf hsT
  rcases hregime with h | h | h
  · have hk : tf = srcF := by rw [htdiv] at h; exact h
    subst hk
    subst hfs
    subst htf
    exact zigZag_roundTrip_factor_eq srcT tf fs M tau phi htau hphi
  · have h1 : tf = 1 := by rw [htdiv] at h; exact h
    subst h1
    have htgtT : tgtT = srcT := by rw [htf, Nat.mul_one]
    subst hfs
    subst htgtT
    have hfs0 : 0 < fs := by
      rcases Nat.eq_zero_or_pos fs with hz | hz
      · rw [hz, Nat.mul_zero] at hphi
        exact absurd hphi (Nat.not_lt_zero phi)
      · exact hz
    rw [zigZag_eval_time_factor_one srcF tgtT fs hsT hsF hfs0 _ tau phi hphi,
      zigZag_eval_time_factor_one srcF tgtT fs hsT hsF hfs0 M tau phi hphi]
  · subst h
    subst htf
    have hF0 : 0 < tgtF := lt_of_le_of_lt (Nat.zero_le phi) hphi
    rw [zigZag_eval_source_freq_one srcT tf tgtF hsT hF0 _ tau phi hphi,
      zigZag_eval_source_freq_one srcT tf tgtF hsT hF0 M tau phi hphi]

/-- The target grid holding its own raster index at every cell, for an
`8 x 8` target (time-major layout, 8 frequencies). -/
def gridCells8 : Nat → Nat → Int := fun t f => t * 8 + f

/-- C1 counterexample: for source `4 x 4` and target `8 x 8` — one of the
resolution pairs the claim quantifies over — the reorder/de-reorder
composition moves the cell at time 0, frequency 2 (the round trip reads
cell `(0, 4)` instead), so it does not return the original grid. -/
theorem c1_counterexample :
    zigZagReshapingFrequenciesFirst (condRelConfig 4 4 8 8)
        (zigZagReshapingFrequenciesFirst (condRelConfig 4 4 8 8) gridCells8)
        0 2
      ≠ gridCells8 0 2 := by decide

/-- The target grid holding its own raster index at every cell, for a
`4 x 16` target (time-major layout, 4 frequencies). -/
def gridCells416 : Nat → Nat → Int := fun t f => t * 4 + f

/-- Witness for the amended C1 at the source `4 x 4`, target `4 x 16`
resolution pair (time resolution factor `16 / 4 = 4` equals the source
frequency count `4`). -/
theorem c1_amended_roundtrip_witness :
    zigZagReshapingFrequenciesFirst (condRelConfig 4 4 4 16)
        (zigZagReshapingFrequenciesFirst (condRelConfig 4 4 4 16) gridCells416)
        5 2
      = gridCells416 5 2 :=
  c1_amended_roundtrip 4 4 4 16 gridCells416 5 2 (by decide) (by decide)
    (by decide) (by decide) (by decide) (by decide) (Or.inl (by decide))

/-- The inner sampling loop with a position-determined oracle writes
exactly the rows it visits in its column. -/
theorem sampleInnerLoop_eval (v : Nat → Nat → Int) (j : Nat)
    (rows : List Nat) (g : Nat → Nat → Int) (i' j' : Nat) :
    sampleInnerLoop j rows (fun _ a b => v a b) g i' j' =
      if j' = j ∧ i' ∈ rows then v i' j' else g i' j' := by
  induction rows generalizing g with
  | nil => simp [sampleInnerLoop]
  | cons r rest ih =>
    have hstep : sampleInnerLoop j (r :: rest) (fun _ a b => v a b) g
        = sampleInnerLoop j rest (fun _ a b => v a b)
            (gridUpdate g r j (v r j)) := rfl
    rw [hstep, ih]
    by_cases hj : j' = j
    · subst hj
      by_cases hr : i' ∈ rest
      · simp [hr]
      · by_cases hir : i' = r
        · subst hir
          simp [hr, gridUpdate]
        · simp [hr, hir, gridUpdate]
    · simp [hj, gridUpdate]

/-- The full sampling loop with a position-determined oracle: position
`(i, j)` receives the oracle token exactly when its column is visited and
`i` lies in `[start_column j, H)`; every other position keeps its initial
value. -/
theorem sampleLoop_eval (v : Nat → Nat → Int) (H W : Nat) (ch cw : Int)
    (g0 : Nat → Nat → Int) (i j : Nat) :
    sampleLoop H W ch cw (fun _ a b => v a b) g0 i j =
      if j < W ∧ ((if (j : Int) > cw then 0 else ch + 1).toNat ≤ i ∧ i < H)
      then v i j else g0 i j := by
  induction W with
  | zero => simp [sampleLoop]
  | succ W ih =>
    have hstep : sampleLoop H (W + 1) ch cw (fun _ a b => v a b) g0
        = sampleInnerLoop W
            (List.range' (if (W : Int) > cw then 0 else ch + 1).toNat
              (H - (if (W : Int) > cw then 0 else ch + 1).toNat))
            (fun _ a b => v a b)
            (sampleLoop H W ch cw (fun _ a b => v a b) g0) := by
      unfold sampleLoop
      rw [List.range_succ, List.foldl_append, List.foldl_cons, List.foldl_nil]
    rw [hstep, sampleInnerLoop_eval, ih]
    have hmem : ∀ s : Nat, (i ∈ List.range' s (H - s)) = (s ≤ i ∧ i < H) := by
      intro s
      rw [eq_iff_iff, List.mem_range'_1]
      omega
    simp only [hmem]
    by_cases hjW : j = W
    · subst hjW
      by_cases hP : (if (j : Int) > cw then 0 else ch + 1).toNat ≤ i ∧ i < H
      · simp [hP]
      · simp [hP]
    · rw [if_neg (fun h => hjW h.1)]
      exact if_congr (and_congr_left' (by omega)) rfl rfl

/-- C2 (amended): after a full `sample_model` call with a constraint of
height `c` and width `w`, the constraint region is preserved; every
position with row index `> c` or column index `> w` is freshly populated
with a sampled token; but the positions of row `c` in columns `≤ w` and
of column `w` in rows `≤ c` (outside the constraint) are skipped by the
off-by-one start row `constraint_height + 1` and the boundary test
`j > constraint_width`, and remain at the zero placeholder. -/
theorem c2_amended_sample (batch H W c w : Nat) (cvals v : Nat → Nat → Int)
    (g : Nat → Nat → Int)
    (hok : sampleModel batch [H, W] (some (c, w, cvals)) (fun _ a b => v a b)
      = Except.ok g) :
    (∀ i j, i < c → j < w → g i j = cvals i j) ∧
    (∀ i j, i < H → j < W → (c < i ∨ w < j) → g i j = v i j) ∧
    (∀ i j, i < H → j < W → i ≤ c → j ≤ w → ¬(i < c ∧ j < w) →
      g i j = 0) := by
  by_cases hpy : pyListGt [batch, c, w] [H, W] = true
  · simp [sampleModel, hpy] at hok
  · have hpy' : pyListGt [batch, c, w] [H, W] = false :=
      Bool.eq_false_iff.mpr hpy
    simp only [sampleModel, List.getD_cons_zero, List.getD_cons_succ,
      hpy', Bool.false_eq_true, if_false, Except.ok.injEq] at hok
    subst hok
    have hstart : ∀ jj : Nat,
        ((if (jj : Int) > (w : Int) then 0 else (c : Int) + 1)).toNat
          = if w < jj then 0 else c + 1 := by
      intro jj
      split_ifs <;> omega
    refine ⟨?_, ?_, ?_⟩
    · intro i j hi hj
      rw [sampleLoop_eval, hstart j]
      have hwj : ¬(w < j) := by omega
      rw [if_neg hwj, if_neg (by omega :
        ¬(j < W ∧ c + 1 ≤ i ∧ i < H))]
      show (if i < c ∧ j < w then cvals i j else 0) = cvals i j
      rw [if_pos ⟨hi, hj⟩]
    · intro i j hiH hjW hcw
      rw [sampleLoop_eval, hstart j]
      by_cases hwj : w < j
      · rw [if_pos hwj, if_pos (by omega : j < W ∧ 0 ≤ i ∧ i < H)]
      · rw [if_neg hwj,
          if_pos (by omega : j < W ∧ c + 1 ≤ i ∧ i < H)]
    · intro i j hiH hjW hic hjw hout
      rw [sampleLoop_eval, hstart j]
      have hwj : ¬(w < j) := by omega
      rw [if_neg hwj, if_neg (by omega :
        ¬(j < W ∧ c + 1 ≤ i ∧ i < H))]
      show (if i < c ∧ j < w then cvals i j else 0) = 0
      rw [if_neg hout]

/-- C2 counterexample: `sample_model` on a `[3, 2]` codemap with a
`1 x 1` constraint (value 7) and an oracle that always returns 1 leaves
cell `(1, 0)` — outside the constraint, row index `1 ≥ c = 1` — at the
zero placeholder instead of a freshly sampled token. -/
theorem c2_counterexample :
    sampledGrid (sampleModel 1 [3, 2] (some (1, 1, fun _ _ => 7))
        (fun _ _ _ => 1)) 1 0 = 0 ∧
    (0 : Int) ≠ 1 := by
  constructor
  · decide
  · decide

/-- Witness for the amended C2 on the same run: the constrained cell
`(0, 0)` keeps 7, the cell `(2, 0)` (row `> c`) is freshly sampled, and
the skipped boundary cell `(1, 0)` stays 0. -/
theorem c2_amended_sample_witness :
    sampledGrid (sampleModel 1 [3, 2] (some (1, 1, fun _ _ => 7))
        (fun _ a b => 1)) 0 0 = 7 ∧
    sampledGrid (sampleModel 1 [3, 2] (some (1, 1, fun _ _ => 7))
        (fun _ a b => 1)) 2 0 = 1 ∧
    sampledGrid (sampleModel 1 [3, 2] (some (1, 1, fun _ _ => 7))
        (fun _ a b => 1)) 1 0 = 0 := by
  have h := c2_amended_sample 1 3 2 1 1 (fun _ _ => 7) (fun _ _ => 1)
    (sampledGrid (sampleModel 1 [3, 2] (some (1, 1, fun _ _ => 7))
      (fun _ a b => 1))) rfl
  exact ⟨h.1 0 0 (by omega) (by omega),
    h.2.1 2 0 (by omega) (by omega) (Or.inl (by omega)),
    h.2.2 1 0 (by omega) (by omega) (by omega) (by omega) (by omega)⟩

/-- `index_fill_` leaves the vector length unchanged. -/
theorem indexFillTrue_length (ids : List Nat) (v : List Bool) :
    (indexFillTrue v ids).length = v.length := by
  induction ids generalizing v with
  | nil => rfl
  | cons i rest ih =>
    show (indexFillTrue (v.set i true) rest).length = v.length
    rw [ih, List.length_set]

/-- Value of the filled vector at an in-range position: the original
value, or true when the position is among the filled indexes. -/
theorem indexFillTrue_getElem? (ids : List Nat) :
    ∀ (v : List Bool) (p : Nat), p < v.length →
      (indexFillTrue v ids)[p]? =
        some (v.getD p false || decide (p ∈ ids)) := by
  induction ids with
  | nil =>
    intro v p hp
    simp [indexFillTrue, List.getElem?_eq_getElem hp,
      List.getD_eq_getElem _ _ hp]
  | cons i rest ih =>
    intro v p hp
    have hstep : indexFillTrue v (i :: rest)
        = indexFillTrue (v.set i true) rest := rfl
    have hp' : p < (v.set i true).length := by
      rw [List.length_set]; exact hp
    rw [hstep, ih (v.set i true) p hp']
    congr 1
    have hset : (v.set i true).getD p false
        = if i = p then true else v.getD p false := by
      rw [List.getD_eq_getElem _ _ hp', List.getElem_set,
        List.getD_eq_getElem _ _ hp]
    rw [hset]
    by_cases h : p = i
    · subst h; simp
    · have h' : ¬(i = p) := fun hh => h hh.symm
      simp [h, h', List.mem_cons]

/-- Shifting rows by `b * L` is injective on indices below `L`: two
shifted indices agree only when row and offset agree. -/
theorem rowShiftIndex_inj (L x jj b0 b : Nat) (hx : x < L) (hj : jj < L)
    (h : x + b0 * L = jj + b * L) : b0 = b ∧ x = jj := by
  have hL : 0 < L := lt_of_le_of_lt (Nat.zero_le x) hx
  have h0 : (x + b0 * L) / L = b0 := by
    rw [Nat.add_mul_div_right _ _ hL, Nat.div_eq_of_lt hx, Nat.zero_add]
  have h1 : (jj + b * L) / L = b := by
    rw [Nat.add_mul_div_right _ _ hL, Nat.div_eq_of_lt hj, Nat.zero_add]
  have hb : b0 = b := by rw [← h0, h, h1]
  subst hb
  exact ⟨rfl, Nat.add_right_cancel h⟩

/-- Membership in the flattened index list: position `jj + b * L` (with
`jj < L`) is flattened from row `b` exactly when row `b` exists and
contains `jj`. -/
theorem flattenMaskIndexes_mem (L : Nat) (idx : List (List Nat)) :
    ∀ (b0 b jj : Nat), jj < L → (∀ row ∈ idx, ∀ x ∈ row, x < L) →
      ((jj + b * L) ∈ flattenMaskIndexes L b0 idx ↔
        ∃ q, q < idx.length ∧ b = b0 + q ∧ jj ∈ idx.getD q []) := by
  induction idx with
  | nil =>
    intro b0 b jj _ _
    simp [flattenMaskIndexes]
  | cons row rest ih =>
    intro b0 b jj hj hval
    have hval' : ∀ r ∈ rest, ∀ x ∈ r, x < L :=
      fun r hr => hval r (List.mem_cons_of_mem _ hr)
    have hrow : ∀ x ∈ row, x < L := hval row (List.mem_cons_self _ _)
    have hunf : flattenMaskIndexes L b0 (row :: rest)
        = row.map (· + b0 * L) ++ flattenMaskIndexes L (b0 + 1) rest := rfl
    rw [hunf]
    constructor
    · intro hmem
      rcases List.mem_append.1 hmem with hmap | hrest
      · rcases List.mem_map.1 hmap with ⟨x, hxrow, hxeq⟩
        obtain ⟨hb, hx⟩ :=
          rowShiftIndex_inj L x jj b0 b (hrow x hxrow) hj hxeq
        refine ⟨0, by simp, by omega, ?_⟩
        simpa [List.getD_cons_zero] using hx ▸ hxrow
      · obtain ⟨q, hq, hbq, hmemq⟩ := (ih (b0 + 1) b jj hj hval').1 hrest
        exact ⟨q + 1, by simpa using Nat.succ_lt_succ hq, by omega,
          by simpa [List.getD_cons_succ] using hmemq⟩
    · rintro ⟨q, hq, hbq, hmemq⟩
      rcases q with _ | q'
      · apply List.mem_append_left
        apply List.mem_map.2
        refine ⟨jj, by simpa [List.getD_cons_zero] using hmemq, ?_⟩
        have : b = b0 := by omega
        rw [this]
      · apply List.mem_append_right
        apply (ih (b0 + 1) b jj hj hval').2
        exact ⟨q', by simp only [List.length_cons] at hq; omega, by omega,
          by simpa [List.getD_cons_succ] using hmemq⟩

/-- C7: `UniformMaskedAmountSequenceMask.sample_mask` draws a single count
`k` in `[ceil(min_masking_ratio * L), L]` once per call (`torch.randint`
bounds) and one list of `k` distinct positions below `L` per batch row
(`torch.multinomial` without replacement); the resulting `[batch, L]`
mask has exactly `k` true entries in every row, with the same `k` shared
across all rows of the call. -/
theorem c7_count_controlled_mask (batch L k : Nat) (r : ℚ)
    (idx : List (List Nat)) (hbatch : idx.length = batch)
    (hkmin : minMaskedAmount L r ≤ (k : ℤ)) (hkmax : k ≤ L)
    (hrows : ∀ row ∈ idx, row.length = k ∧ row.Nodup ∧ ∀ x ∈ row, x < L) :
    (sampleMaskUniformAmount batch L k idx).length = batch ∧
    ∀ b, b < batch →
      ((sampleMaskUniformAmount batch L k idx).getD b []).length = L ∧
      ((sampleMaskUniformAmount batch L k idx).getD b []).count true = k := by
  set flat := flattenMaskIndexes L 0 idx with hflat
  set vv := indexFillTrue (List.replicate (batch * L) false) flat with hvv
  have hvvlen : vv.length = batch * L := by
    rw [hvv, indexFillTrue_length, List.length_replicate]
  have hlen : (sampleMaskUniformAmount batch L k idx).length = batch := by
    simp [sampleMaskUniformAmount, maskReshape]
  refine ⟨hlen, ?_⟩
  intro b hb
  have hval : ∀ row ∈ idx, ∀ x ∈ row, x < L := fun row hr => (hrows row hr).2.2
  have hmapb : b < ((List.range batch).map
      (fun bb => (vv.drop (bb * L)).take L)).length := by
    rw [List.length_map, List.length_range]; exact hb
  have hrowb : (sampleMaskUniformAmount batch L k idx).getD b []
      = (vv.drop (b * L)).take L := by
    show (maskReshape batch L vv).getD b [] = _
    unfold maskReshape
    rw [List.getD_eq_getElem _ _ hmapb, List.getElem_map, List.getElem_range]
  have hble : b * L + L ≤ batch * L := by
    have h2 : (b + 1) * L ≤ batch * L := Nat.mul_le_mul_right L hb
    calc b * L + L = (b + 1) * L := by ring
      _ ≤ batch * L := h2
  have hrowlen : ((vv.drop (b * L)).take L).length = L := by
    rw [List.length_take, List.length_drop, hvvlen]
    exact Nat.min_eq_left (Nat.le_sub_of_add_le (by rw [Nat.add_comm]; exact hble))
  have hSmem : idx.getD b [] ∈ idx := by
    rw [List.getD_eq_getElem _ _ (by rw [hbatch]; exact hb)]
    exact List.getElem_mem _
  have hSlen : (idx.getD b []).length = k := (hrows _ hSmem).1
  have hSnd : (idx.getD b []).Nodup := (hrows _ hSmem).2.1
  have hSlt : ∀ x ∈ idx.getD b [], x < L := (hrows _ hSmem).2.2
  have hrow_eq : (vv.drop (b * L)).take L
      = (List.range L).map (fun p => decide (p ∈ idx.getD b [])) := by
    apply List.ext_getElem
    · rw [hrowlen, List.length_map, List.length_range]
    · intro n h1 h2
      have hnL : n < L := by rw [hrowlen] at h1; exact h1
      rw [List.getElem_take, List.getElem_drop, List.getElem_map,
        List.getElem_range]
      have hreplen : b * L + n < (List.replicate (batch * L) false).length := by
        rw [List.length_replicate]
        exact lt_of_lt_of_le (Nat.add_lt_add_left hnL _) hble
      have hfill := indexFillTrue_getElem? flat
        (List.replicate (batch * L) false) (b * L + n) hreplen
      rw [← hvv] at hfill
      have hvlt : b * L + n < vv.length := by
        rw [hvvlen]
        exact lt_of_lt_of_le (Nat.add_lt_add_left hnL _) hble
      rw [List.getElem?_eq_getElem hvlt] at hfill
      have hfill' := Option.some.inj hfill
      rw [hfill']
      have hrep : (List.replicate (batch * L) false).getD (b * L + n) false
          = false := by
        rw [List.getD_eq_getElem _ _ hreplen, List.getElem_replicate]
      rw [hrep, Bool.false_or]
      have hmem := flattenMaskIndexes_mem L idx 0 b n hnL hval
      have hiff : ((b * L + n) ∈ flat) ↔ n ∈ idx.getD b [] := by
        constructor
        · intro h
          rw [hflat, Nat.add_comm (b * L) n] at h
          obtain ⟨q, hq, hbq, hm⟩ := hmem.1 h
          have hqb : q = b := by omega
          rw [← hqb]
          exact hm
        · intro h
          have h' := hmem.2 ⟨b, by rw [hbatch]; exact hb, by omega, h⟩
          rw [hflat, Nat.add_comm (b * L) n]
          exact h'
      exact decide_eq_decide.mpr hiff
  constructor
  · rw [hrowb]; exact hrowlen
  · rw [hrowb, hrow_eq]
    have hcomp : ((fun x => x == true) ∘ (fun p : Nat => decide (p ∈ idx.getD b [])))
        = (fun p : Nat => decide (p ∈ idx.getD b [])) := by
      funext p
      by_cases h : p ∈ idx.getD b [] <;> simp [h]
    rw [List.count_eq_countP, List.countP_map, hcomp,
      List.countP_eq_length_filter]
    have hperm : ((List.range L).filter
        (fun p => decide (p ∈ idx.getD b []))).Perm (idx.getD b []) := by
      apply List.perm_of_nodup_nodup_toFinset_eq
        ((List.nodup_range L).filter _) hSnd
      ext x
      simp only [List.mem_toFinset, List.mem_filter, List.mem_range,
        decide_eq_true_eq]
      constructor
      · rintro ⟨_, h⟩; exact h
      · intro h; exact ⟨hSlt x h, h⟩
    rw [hperm.length_eq, hSlen]

/-- Witness for C7: batch 2, sequence length 3, `k = 2`, index rows
`[0, 2]` and `[1, 0]`: both mask rows contain exactly 2 true entries. -/
theorem c7_count_controlled_mask_witness :
    ((sampleMaskUniformAmount 2 3 2 [[0, 2], [1, 0]]).getD 0 []).count true = 2 ∧
    ((sampleMaskUniformAmount 2 3 2 [[0, 2], [1, 0]]).getD 1 []).count true = 2 := by
  have h := c7_count_controlled_mask 2 3 2 0 [[0, 2], [1, 0]] rfl
    (by simp [minMaskedAmount]) (by omega) (by decide)
  exact ⟨(h.2 0 (by omega)).2, (h.2 1 (by omega)).2⟩
